import Mathlib

/-!
# Verification of the dmarcator header-evaluation core

A shallow embedding of the per-session header-evaluation state machine of
`main.go` (the `Session` milter callbacks `MailFrom`, `Header`, `Headers`,
the decision rule `shouldRejectDMARCRes`, the rejection response builder
`newRejectResponse`, and the reject-domain table built in `main`), together
with theorems about its decision and audit behaviour.

External capabilities are modelled at their contract boundary:
* `authres.Parse` is a parameter `parse : String → Except String (String × List AuthResult)`
  (an `Except.error` carries the error message that Go prints with `%v`);
* the milter wire protocol is reduced to the three response values the core
  produces (`continue`, `accept`, and a reply-code response with text);
* `log.Printf` side effects are captured as structured `LogLine` values
  (with `LogLine.render` giving the formatted text, modelling `%q` for
  printable ASCII without escapes beyond quotes and backslashes);
* Go's `strings.ToLower` / `strings.EqualFold` are modelled with Lean's
  ASCII `String.toLower`, which agrees with Go on ASCII input.
-/

namespace Dmarcator

/-- The DMARC entry of a parsed Authentication-Results header
(`authres.DMARCResult`): `Value` is the outcome (the `ResultValue` string,
e.g. "pass"/"fail"/"none"), `From` the claimed domain in original casing. -/
structure DMARCResult where
  Value : String
  From : String
deriving DecidableEq, Repr

/-- One entry of a parsed Authentication-Results header (`authres.Result`).
Only the DMARC kind is inspected by the core (the Go type assertion
`result.(*authres.DMARCResult)`); every other kind is `other`. -/
inductive AuthResult where
  | dmarc (r : DMARCResult)
  | other
deriving DecidableEq, Repr

/-- `authres.ResultPass`. -/
def ResultPass : String := "pass"

/-- The configuration structure `Conf` of `main.go`. -/
structure Conf where
  AuthservID : String
  ListenURI : String
  RejectDomains : List String
  RejectFmt : String
  UMask : Int
deriving DecidableEq, Repr

/-- Model of Go's `strings.ToLower` (ASCII range), written over the
character list so that it reduces by computation. -/
def goToLower (s : String) : String := ⟨s.data.map Char.toLower⟩

/-- Model of Go's `strings.EqualFold` (ASCII range). -/
def equalFold (a b : String) : Bool := goToLower a == goToLower b

/-- The reject-domain table built in `main`:
`for _, domain := range conf.RejectDomains { rejectDomains[strings.ToLower(domain)] = true }`.
The Go `map[string]bool` is modelled by its membership list; a missing key
reads as `false`, which `List.contains` matches. -/
def mkRejectDomains (ds : List String) : List String := ds.map goToLower

/-- `shouldRejectDMARCRes` of `main.go`:
`result.Value != authres.ResultPass && rejectDomains[strings.ToLower(result.From)]`. -/
def shouldRejectDMARCRes (rejectDomains : List String) (result : DMARCResult) : Bool :=
  result.Value != ResultPass && rejectDomains.contains (goToLower result.From)

/-- Substitute the first `%s` verb of a format character list with `arg`,
leaving the remainder verbatim (under the configuration contract the
template holds exactly one `%s`, so the remainder has none). -/
def substVerb : List Char → List Char → List Char
  | [], _ => []
  | [c], _ => [c]
  | c1 :: c2 :: rest, arg =>
      if c1 = '%' && c2 = 's' then arg ++ rest
      else c1 :: substVerb (c2 :: rest) arg

/-- Model of `fmt.Sprintf` for a format string containing a single `%s`
verb, the shape the `RejectFmt` configuration contract requires. -/
def sprintf1 (format arg : String) : String :=
  ⟨substVerb format.data arg.data⟩

/-- The milter responses the core produces: `milter.RespContinue`,
`milter.RespAccept`, and `milter.NewResponseStr(byte(milter.ActReplyCode), text)`. -/
inductive Response where
  | respContinue
  | respAccept
  | respReplyCode (text : String)
deriving DecidableEq, Repr

/-- `newRejectResponse` of `main.go`:
`milter.NewResponseStr(byte(milter.ActReplyCode), "550 5.7.1 "+fmt.Sprintf(conf.RejectFmt, domain))`. -/
def newRejectResponse (conf : Conf) (domain : String) : Response :=
  .respReplyCode ("550 5.7.1 " ++ sprintf1 conf.RejectFmt domain)

/-- The `fieldAuthres` bit flag (`1 << iota`). -/
def fieldAuthres : Nat := 1

/-- The `fieldFrom` bit flag. -/
def fieldFrom : Nat := 2

/-- The `fieldLast` sentinel. -/
def fieldLast : Nat := 4

/-- `fieldAll = fieldLast - 1`. -/
def fieldAll : Nat := fieldLast - 1

/-- The per-transaction `Session` state of `main.go` (its captured fields;
the embedded `milter.NoOpMilter` carries no state).  The Go zero value of
each field gives the initial state. -/
structure Session where
  fieldsFound : Nat
  dmarcResult : Option DMARCResult
  shouldReject : Bool
  headerFrom : String
deriving DecidableEq, Repr

/-- The zero-value `Session` a new transaction starts from
(`NewMilter: func() milter.Milter { return &Session{} }`). -/
def initSession : Session :=
  { fieldsFound := 0, dmarcResult := none, shouldReject := false, headerFrom := "" }

/-- A structured `log.Printf` line emitted by the core: either the
parse-failure diagnostic of `Session.Header` or the audit line of
`Session.Headers`. -/
inductive LogLine where
  | logParseFailure (queueID errMsg rawField : String)
  | audit (queueID outcome dmarcValue fromDomain addr : String)
deriving DecidableEq, Repr

/-- Model of the `%q` verb for printable ASCII: double quotes around the
string, escaping backslashes and double quotes. -/
def goQuote (s : String) : String :=
  "\"" ++ String.join (s.toList.map fun c =>
    if c = '"' then "\\\"" else if c = '\\' then "\\\\" else String.singleton c) ++ "\""

/-- The formatted text of a log line, following the `l.Printf` format
strings of `main.go`. -/
def LogLine.render : LogLine → String
  | .logParseFailure q e raw =>
      q ++ ": failed to parse header: " ++ e ++ ": " ++ goQuote raw
  | .audit q outcome d f addr =>
      q ++ ": " ++ outcome ++ " dmarc=" ++ d ++ " from=" ++ f ++ " addr=" ++ goQuote addr

/-- The result of one milter callback: the session state after the call
(Go mutates `*Session` in place), the returned `milter.Response`, the
returned `error` (always `nil` in this program, modelled as `none`), and
the log lines printed during the call. -/
structure MilterOut where
  sess : Session
  resp : Response
  err : Option String
  logs : List LogLine
deriving DecidableEq, Repr

/-- `Session.MailFrom` of `main.go`: accept when the `{auth_authen}` macro
is non-empty (SASL-authenticated client), continue otherwise.  The session
state is untouched, so only the response pair is returned. -/
def Session.MailFrom (authAuthen : String) : Response × Option String :=
  if authAuthen != "" then (.respAccept, none) else (.respContinue, none)

/-- The body of the `for _, result := range results` loop of
`Session.Header`: a DMARC entry marks the field captured, stores the entry
and caches the decision; any other entry kind is skipped. -/
def captureDMARC (rejectDomains : List String) (s : Session) (result : AuthResult) : Session :=
  match result with
  | .dmarc r =>
      { s with fieldsFound := s.fieldsFound ||| fieldAuthres,
               dmarcResult := some r,
               shouldReject := shouldRejectDMARCRes rejectDomains r }
  | .other => s

/-- `Session.Header` of `main.go`, with `authres.Parse` passed in as
`parse` and the `m.Macros["i"]` queue id as `queueID`.  Each early
`return milter.RespContinue, nil` becomes a `MilterOut` with the session
as left at that point. -/
def Session.Header (conf : Conf) (rejectDomains : List String)
    (parse : String → Except String (String × List AuthResult))
    (queueID : String) (s : Session) (name value : String) : MilterOut :=
  if s.fieldsFound == fieldAll then
    ⟨s, .respContinue, none, []⟩
  else if s.fieldsFound &&& fieldFrom == 0 && equalFold name "From" then
    ⟨{ s with fieldsFound := s.fieldsFound ||| fieldFrom, headerFrom := value },
      .respContinue, none, []⟩
  else if s.fieldsFound &&& fieldAuthres == 0 && equalFold name "Authentication-Results" then
    match parse value with
    | .error e =>
        ⟨s, .respContinue, none, [.logParseFailure queueID e (name ++ ": " ++ value)]⟩
    | .ok (id, results) =>
        if !equalFold id conf.AuthservID then
          ⟨s, .respContinue, none, []⟩
        else
          ⟨results.foldl (captureDMARC rejectDomains) s, .respContinue, none, []⟩
  else
    ⟨s, .respContinue, none, []⟩

/-- `Session.Headers` of `main.go` (the end-of-headers callback): renders
the final verdict and the audit line from the captured state.  No field of
`s` is assigned in the Go body, so the output session is the input. -/
def Session.Headers (conf : Conf) (queueID : String) (s : Session) : MilterOut :=
  match s.dmarcResult with
  | none =>
      ⟨s, .respAccept, none, [.audit queueID "accept" "unknown" "unknown" s.headerFrom]⟩
  | some r =>
      if s.shouldReject then
        ⟨s, newRejectResponse conf r.From, none,
          [.audit queueID "reject" r.Value r.From s.headerFrom]⟩
      else
        ⟨s, .respAccept, none, [.audit queueID "accept" r.Value r.From s.headerFrom]⟩

/-- Folding `Session.Header` over a list of (name, value) header events,
as the protocol driver delivers them in arrival order. -/
def runHeaders (conf : Conf) (rejectDomains : List String)
    (parse : String → Except String (String × List AuthResult))
    (queueID : String) (s : Session) (events : List (String × String)) : Session :=
  events.foldl (fun st ev => (Session.Header conf rejectDomains parse queueID st ev.1 ev.2).sess) s

/-- The last DMARC entry of a parsed result list, the one the
`for ... range results` loop of `Session.Header` leaves captured. -/
def lastDmarc : List AuthResult → Option DMARCResult
  | [] => none
  | a :: rs =>
      match lastDmarc rs with
      | some r => some r
      | none => match a with
                | .dmarc r => some r
                | .other => none

/-- The cached-decision invariant of the session state: `shouldReject` is
exactly the decision rule applied to the captured verdict. -/
def DecisionCached (tbl : List String) (s : Session) : Prop :=
  ∀ r, s.dmarcResult = some r → s.shouldReject = shouldRejectDMARCRes tbl r

/-- A header event that can capture no DMARC verdict: its name is not
`Authentication-Results` (case-insensitively), or its value does not parse,
or it parses with a foreign authserv identifier, or it parses without any
DMARC entry. -/
def inertEvent (conf : Conf)
    (parse : String → Except String (String × List AuthResult))
    (ev : String × String) : Bool :=
  !equalFold ev.1 "Authentication-Results" ||
  (match parse ev.2 with
   | .error _ => true
   | .ok (id, results) =>
       !equalFold id conf.AuthservID || (lastDmarc results).isNone)

/-- A concrete stand-in for `authres.Parse` on the header values used in
the repository's tests, mapping each value to the identifier and result
entries the real parser extracts from it. -/
def sampleParse : String → Except String (String × List AuthResult)
  | "mail.club1.fr; dmarc=fail header.from=GMAIL.com" =>
      .ok ("mail.club1.fr", [.dmarc ⟨"fail", "GMAIL.com"⟩])
  | "mail.club1.fr; dmarc=pass header.from=gmail.com" =>
      .ok ("mail.club1.fr", [.dmarc ⟨"pass", "gmail.com"⟩])
  | "mail.club1.fr; dmarc=pass header.from=coucou.fr" =>
      .ok ("mail.club1.fr", [.dmarc ⟨"pass", "coucou.fr"⟩])
  | "mail.club1.fr; dmarc=fail header.from=a.com; dmarc=none header.from=b.com" =>
      .ok ("mail.club1.fr", [.dmarc ⟨"fail", "a.com"⟩, .dmarc ⟨"none", "b.com"⟩])
  | "mail.club1.fr; auth=none header.from=example.com" =>
      .ok ("mail.club1.fr", [.other])
  | "example.com; dmarc=fail header.from=gmail.com" =>
      .ok ("example.com", [.dmarc ⟨"fail", "gmail.com"⟩])
  | _ => .error "msgauth: malformed authentication method"

/-- The configuration of the repository's tests. -/
def sampleConf : Conf :=
  { AuthservID := "mail.club1.fr",
    ListenURI := "unix:///run/dmarcator/dmarcator.sock",
    RejectDomains := ["gmail.com"],
    RejectFmt := "rejected because of DMARC failure for %s overriding policy",
    UMask := 2 }

/-- The reject-domain table built from `sampleConf`. -/
def sampleTbl : List String := mkRejectDomains sampleConf.RejectDomains

/-- A session that has captured a rejecting verdict with mixed-case domain. -/
def sampleRejectSession : Session :=
  { fieldsFound := 1, dmarcResult := some ⟨"fail", "GMAIL.com"⟩,
    shouldReject := true, headerFrom := "" }

/-- The text of the default rejection template before its `%s` verb. -/
def rejectFmtPre : List Char := "rejected because of DMARC failure for ".data

/-- The text of the default rejection template after its `%s` verb. -/
def rejectFmtPost : List Char := " overriding policy".data

/-- Header events none of which can capture a verdict: a From header, an
unrelated header, an unparsable Authentication-Results value, one with a
foreign authserv identifier, and one without a DMARC entry. -/
def sampleInertEvents : List (String × String) :=
  [("From", "hello@example.com"),
   ("Subject", "Hello world!"),
   ("Authentication-Results", "mail.club1.fr; dmarc header.from=gmail.com"),
   ("Authentication-Results", "example.com; dmarc=fail header.from=gmail.com"),
   ("Authentication-Results", "mail.club1.fr; auth=none header.from=example.com")]

/-- A session with both fields already captured. -/
def sampleCapturedSession : Session :=
  { fieldsFound := 3, dmarcResult := some ⟨"fail", "gmail.com"⟩,
    shouldReject := true, headerFrom := "first@gmail.com" }

/-- Later header events that must not change a fully captured session. -/
def sampleLaterEvents : List (String × String) :=
  [("Authentication-Results", "mail.club1.fr; dmarc=pass header.from=gmail.com"),
   ("From", "second@gmail.com")]

/-- The raw `From` value of the repository's mime-encoded test vector. -/
def rawEncodedFrom : String := "=?ISO-8859-1?Q?Aur=E9lien_COUDERC?= <libre@coucou.fr>"

/-- Its MIME-word-decoded display form, the value the repository's test
expects inside the audit line. -/
def decodedFrom : String := "Aurélien COUDERC <libre@coucou.fr>"

/-- The header events of the repository's mime-encoded From test. -/
def mimeEvents : List (String × String) :=
  [("Authentication-Results", "mail.club1.fr; dmarc=pass header.from=coucou.fr"),
   ("From", rawEncodedFrom)]

/-! ### Supporting lemmas -/

theorem testBit_one_succ (j : Nat) : Nat.testBit 1 (j + 1) = false := by
  rw [Nat.testBit_succ]
  simp [Nat.zero_testBit]

theorem testBit_two_succ_succ (j : Nat) : Nat.testBit 2 (j + 2) = false := by
  rw [Nat.testBit_succ, Nat.testBit_succ]
  simp [Nat.zero_testBit]

theorem lor_two_and_one (x : Nat) : (x ||| 2) &&& 1 = x &&& 1 := by
  apply Nat.eq_of_testBit_eq
  intro i
  rw [Nat.testBit_and, Nat.testBit_and, Nat.testBit_or]
  cases i with
  | zero => simp [show Nat.testBit 2 0 = false from by decide]
  | succ j => simp [testBit_one_succ]

theorem lor_one_and_two (x : Nat) : (x ||| 1) &&& 2 = x &&& 2 := by
  apply Nat.eq_of_testBit_eq
  intro i
  rw [Nat.testBit_and, Nat.testBit_and, Nat.testBit_or]
  match i with
  | 0 => simp [show Nat.testBit 1 0 = true from by decide,
               show Nat.testBit 2 0 = false from by decide]
  | 1 => simp [show Nat.testBit 1 1 = false from by decide]
  | (j+2) => simp [testBit_one_succ, testBit_two_succ_succ]

theorem lor_one_and_one (x : Nat) : (x ||| 1) &&& 1 = 1 := by
  apply Nat.eq_of_testBit_eq
  intro i
  rw [Nat.testBit_and, Nat.testBit_or]
  cases i with
  | zero => simp [show Nat.testBit 1 0 = true from by decide]
  | succ j => simp [testBit_one_succ]

theorem lor_one_idem (x : Nat) : (x ||| 1) ||| 1 = x ||| 1 := by
  rw [Nat.lor_assoc, show (1 ||| 1 : Nat) = 1 from by decide]

theorem beq_fieldAll_false_of_authres_clear {x : Nat} (h : x &&& 1 = 0) :
    (x == 3) = false := by
  rw [beq_eq_false_iff_ne]
  rintro rfl
  simp at h

theorem substVerb_single (arg post : List Char) :
    ∀ pre : List Char, '%' ∉ pre →
      substVerb (pre ++ '%' :: 's' :: post) arg = pre ++ arg ++ post := by
  intro pre
  induction pre with
  | nil =>
    intro _
    rw [List.nil_append, substVerb, if_pos (by simp), List.nil_append]
  | cons c cs ih =>
    intro hpre
    have hc : c ≠ '%' := fun h => hpre (h ▸ List.mem_cons_self c cs)
    have hcs : '%' ∉ cs := fun h => hpre (List.mem_cons_of_mem c h)
    cases cs with
    | nil =>
      rw [List.cons_append, List.nil_append, substVerb, if_neg (by simp [hc]),
          substVerb, if_pos (by simp)]
      simp
    | cons c2 cs2 =>
      rw [List.cons_append, List.cons_append, substVerb, if_neg (by simp [hc]),
          ← List.cons_append, ih hcs]
      simp

theorem foldl_captureDMARC_of_lastDmarc_none (tbl : List String) {rs : List AuthResult}
    (h : lastDmarc rs = none) (s : Session) :
    rs.foldl (captureDMARC tbl) s = s := by
  induction rs generalizing s with
  | nil => rfl
  | cons a t ih =>
    rw [List.foldl_cons]
    cases ht : lastDmarc t with
    | some r => simp [lastDmarc, ht] at h
    | none =>
      cases a with
      | dmarc r => simp [lastDmarc, ht] at h
      | other => exact ih ht (captureDMARC tbl s .other)

theorem foldl_captureDMARC_of_lastDmarc_some (tbl : List String) {rs : List AuthResult}
    {r : DMARCResult} (h : lastDmarc rs = some r) (s : Session) :
    rs.foldl (captureDMARC tbl) s =
      { s with fieldsFound := s.fieldsFound ||| fieldAuthres,
               dmarcResult := some r,
               shouldReject := shouldRejectDMARCRes tbl r } := by
  induction rs generalizing s with
  | nil => simp [lastDmarc] at h
  | cons a t ih =>
    rw [List.foldl_cons]
    cases ht : lastDmarc t with
    | some r' =>
      have hr : r' = r := by
        simp [lastDmarc, ht] at h
        exact h
      subst hr
      cases a with
      | dmarc r0 =>
        rw [ih ht]
        simp [captureDMARC, fieldAuthres, lor_one_idem]
      | other =>
        exact ih ht (captureDMARC tbl s .other)
    | none =>
      cases a with
      | dmarc r0 =>
        have hr : r0 = r := by
          simp [lastDmarc, ht] at h
          exact h
        subst hr
        rw [show captureDMARC tbl s (.dmarc r0) =
          { s with fieldsFound := s.fieldsFound ||| fieldAuthres,
                   dmarcResult := some r0,
                   shouldReject := shouldRejectDMARCRes tbl r0 } from rfl]
        exact foldl_captureDMARC_of_lastDmarc_none tbl ht _
      | other => simp [lastDmarc, ht] at h

theorem equalFold_authres_not_From {n : String}
    (h : equalFold n "Authentication-Results" = true) : equalFold n "From" = false := by
  unfold equalFold at h ⊢
  rw [beq_iff_eq] at h
  rw [h]
  decide

theorem Header_full_capture (conf : Conf) (tbl : List String)
    (parse : String → Except String (String × List AuthResult)) (qid : String)
    (s : Session) (n v : String) (h : s.fieldsFound = fieldAll) :
    Session.Header conf tbl parse qid s n v = ⟨s, .respContinue, none, []⟩ := by
  unfold Session.Header
  rw [h, if_pos (by simp)]

theorem Header_from_capture (conf : Conf) (tbl : List String)
    (parse : String → Except String (String × List AuthResult)) (qid : String)
    (s : Session) (n v : String)
    (hne : s.fieldsFound ≠ fieldAll)
    (hbit : s.fieldsFound &&& fieldFrom = 0)
    (hname : equalFold n "From" = true) :
    Session.Header conf tbl parse qid s n v =
      ⟨{ s with fieldsFound := s.fieldsFound ||| fieldFrom, headerFrom := v },
        .respContinue, none, []⟩ := by
  unfold Session.Header
  rw [if_neg, if_pos]
  · rw [hbit, hname]
    decide
  · simp [hne]

theorem Header_authres_branch (conf : Conf) (tbl : List String)
    (parse : String → Except String (String × List AuthResult)) (qid : String)
    (s : Session) (n v : String)
    (hbit : s.fieldsFound &&& fieldAuthres = 0)
    (hname : equalFold n "Authentication-Results" = true) :
    Session.Header conf tbl parse qid s n v =
      match parse v with
      | .error e =>
          ⟨s, .respContinue, none, [.logParseFailure qid e (n ++ ": " ++ v)]⟩
      | .ok (id, results) =>
          if !equalFold id conf.AuthservID then
            ⟨s, .respContinue, none, []⟩
          else
            ⟨results.foldl (captureDMARC tbl) s, .respContinue, none, []⟩ := by
  unfold Session.Header
  rw [if_neg, if_neg, if_pos]
  · rw [hbit, hname]
    decide
  · rw [equalFold_authres_not_From hname]
    simp
  · have : (s.fieldsFound == fieldAll) = false :=
      beq_fieldAll_false_of_authres_clear hbit
    simp [this]

theorem Header_resp_err (conf : Conf) (tbl : List String)
    (parse : String → Except String (String × List AuthResult)) (qid : String)
    (s : Session) (n v : String) :
    (Session.Header conf tbl parse qid s n v).resp = .respContinue ∧
    (Session.Header conf tbl parse qid s n v).err = none := by
  unfold Session.Header
  repeat' first
    | exact ⟨rfl, rfl⟩
    | split

theorem Header_preserves_authres (conf : Conf) (tbl : List String)
    (parse : String → Except String (String × List AuthResult)) (qid : String)
    (s : Session) (n v : String) (hbit : s.fieldsFound &&& fieldAuthres ≠ 0) :
    (Session.Header conf tbl parse qid s n v).sess.dmarcResult = s.dmarcResult ∧
    (Session.Header conf tbl parse qid s n v).sess.shouldReject = s.shouldReject ∧
    (Session.Header conf tbl parse qid s n v).sess.fieldsFound &&& fieldAuthres ≠ 0 := by
  unfold Session.Header
  split
  · exact ⟨rfl, rfl, hbit⟩
  · split
    · refine ⟨rfl, rfl, ?_⟩
      show (s.fieldsFound ||| fieldFrom) &&& fieldAuthres ≠ 0
      unfold fieldFrom fieldAuthres at *
      rw [lor_two_and_one]
      exact hbit
    · split
      · next hcond =>
        rw [Bool.and_eq_true] at hcond
        rw [beq_iff_eq] at hcond
        exact absurd hcond.1 hbit
      · exact ⟨rfl, rfl, hbit⟩

theorem Header_preserves_from (conf : Conf) (tbl : List String)
    (parse : String → Except String (String × List AuthResult)) (qid : String)
    (s : Session) (n v : String) (hbit : s.fieldsFound &&& fieldFrom ≠ 0) :
    (Session.Header conf tbl parse qid s n v).sess.headerFrom = s.headerFrom ∧
    (Session.Header conf tbl parse qid s n v).sess.fieldsFound &&& fieldFrom ≠ 0 := by
  unfold Session.Header
  split
  · exact ⟨rfl, hbit⟩
  · split
    · next hcond =>
      rw [Bool.and_eq_true] at hcond
      rw [beq_iff_eq] at hcond
      exact absurd hcond.1 hbit
    · split
      · split
        · exact ⟨rfl, hbit⟩
        · rename_i i results heq
          split
          · exact ⟨rfl, hbit⟩
          · cases hl : lastDmarc results with
            | none =>
              rw [foldl_captureDMARC_of_lastDmarc_none tbl hl]
              exact ⟨rfl, hbit⟩
            | some r =>
              rw [foldl_captureDMARC_of_lastDmarc_some tbl hl]
              refine ⟨rfl, ?_⟩
              show (s.fieldsFound ||| fieldAuthres) &&& fieldFrom ≠ 0
              unfold fieldFrom fieldAuthres at *
              rw [lor_one_and_two]
              exact hbit
      · exact ⟨rfl, hbit⟩

theorem runHeaders_cons (conf : Conf) (tbl : List String)
    (parse : String → Except String (String × List AuthResult)) (qid : String)
    (s : Session) (e : String × String) (es : List (String × String)) :
    runHeaders conf tbl parse qid s (e :: es) =
      runHeaders conf tbl parse qid (Session.Header conf tbl parse qid s e.1 e.2).sess es := rfl

theorem runHeaders_preserves_authres (conf : Conf) (tbl : List String)
    (parse : String → Except String (String × List AuthResult)) (qid : String)
    (events : List (String × String)) (s : Session)
    (hbit : s.fieldsFound &&& fieldAuthres ≠ 0) :
    (runHeaders conf tbl parse qid s events).dmarcResult = s.dmarcResult ∧
    (runHeaders conf tbl parse qid s events).shouldReject = s.shouldReject ∧
    (runHeaders conf tbl parse qid s events).fieldsFound &&& fieldAuthres ≠ 0 := by
  induction events generalizing s with
  | nil => exact ⟨rfl, rfl, hbit⟩
  | cons e es ih =>
    rw [runHeaders_cons]
    obtain ⟨h1, h2, h3⟩ := Header_preserves_authres conf tbl parse qid s e.1 e.2 hbit
    obtain ⟨g1, g2, g3⟩ := ih _ h3
    exact ⟨g1.trans h1, g2.trans h2, g3⟩

theorem runHeaders_preserves_from (conf : Conf) (tbl : List String)
    (parse : String → Except String (String × List AuthResult)) (qid : String)
    (events : List (String × String)) (s : Session)
    (hbit : s.fieldsFound &&& fieldFrom ≠ 0) :
    (runHeaders conf tbl parse qid s events).headerFrom = s.headerFrom ∧
    (runHeaders conf tbl parse qid s events).fieldsFound &&& fieldFrom ≠ 0 := by
  induction events generalizing s with
  | nil => exact ⟨rfl, hbit⟩
  | cons e es ih =>
    rw [runHeaders_cons]
    obtain ⟨h1, h2⟩ := Header_preserves_from conf tbl parse qid s e.1 e.2 hbit
    obtain ⟨g1, g2⟩ := ih _ h2
    exact ⟨g1.trans h1, g2⟩

theorem runHeaders_full_capture (conf : Conf) (tbl : List String)
    (parse : String → Except String (String × List AuthResult)) (qid : String)
    (events : List (String × String)) (s : Session) (h : s.fieldsFound = fieldAll) :
    runHeaders conf tbl parse qid s events = s := by
  induction events with
  | nil => rfl
  | cons e es ih =>
    rw [runHeaders_cons, Header_full_capture conf tbl parse qid s e.1 e.2 h]
    exact ih

theorem Header_preserves_cached (conf : Conf) (tbl : List String)
    (parse : String → Except String (String × List AuthResult)) (qid : String)
    (s : Session) (n v : String) (hs : DecisionCached tbl s) :
    DecisionCached tbl (Session.Header conf tbl parse qid s n v).sess := by
  unfold Session.Header
  split
  · exact hs
  · split
    · intro r hr
      exact hs r hr
    · split
      · split
        · exact hs
        · rename_i i results heq
          split
          · exact hs
          · cases hl : lastDmarc results with
            | none =>
              rw [foldl_captureDMARC_of_lastDmarc_none tbl hl]
              exact hs
            | some r =>
              rw [foldl_captureDMARC_of_lastDmarc_some tbl hl]
              intro r' hr'
              cases Option.some.inj hr'
              rfl
      · exact hs

theorem runHeaders_preserves_cached (conf : Conf) (tbl : List String)
    (parse : String → Except String (String × List AuthResult)) (qid : String)
    (events : List (String × String)) (s : Session) (hs : DecisionCached tbl s) :
    DecisionCached tbl (runHeaders conf tbl parse qid s events) := by
  induction events generalizing s with
  | nil => exact hs
  | cons e es ih =>
    rw [runHeaders_cons]
    exact ih _ (Header_preserves_cached conf tbl parse qid s e.1 e.2 hs)

theorem Header_inert_preserves_dmarcResult (conf : Conf) (tbl : List String)
    (parse : String → Except String (String × List AuthResult)) (qid : String)
    (s : Session) (n v : String) (hev : inertEvent conf parse (n, v) = true) :
    (Session.Header conf tbl parse qid s n v).sess.dmarcResult = s.dmarcResult := by
  unfold Session.Header
  split
  · rfl
  · split
    · rfl
    · split
      · next hcond =>
        rw [Bool.and_eq_true] at hcond
        unfold inertEvent at hev
        rw [hcond.2] at hev
        rw [Bool.not_true, Bool.false_or] at hev
        split
        · rfl
        · rename_i i results heq
          rw [heq] at hev
          split
          · rfl
          · next hid =>
            rw [Bool.or_eq_true] at hev
            rcases hev with h1 | h2
            · exact absurd h1 hid
            · rw [foldl_captureDMARC_of_lastDmarc_none tbl
                (Option.isNone_iff_eq_none.mp h2)]
      · rfl

theorem runHeaders_inert_preserves_dmarcResult (conf : Conf) (tbl : List String)
    (parse : String → Except String (String × List AuthResult)) (qid : String)
    (events : List (String × String)) (s : Session)
    (h : ∀ ev ∈ events, inertEvent conf parse ev = true) :
    (runHeaders conf tbl parse qid s events).dmarcResult = s.dmarcResult := by
  induction events generalizing s with
  | nil => rfl
  | cons e es ih =>
    rw [runHeaders_cons]
    have he : inertEvent conf parse e = true := h e (List.mem_cons_self e es)
    have : (Session.Header conf tbl parse qid s e.1 e.2).sess.dmarcResult = s.dmarcResult :=
      Header_inert_preserves_dmarcResult conf tbl parse qid s e.1 e.2 he
    rw [ih _ fun ev hev => h ev (List.mem_cons_of_mem e hev), this]

theorem Headers_none (conf : Conf) (qid : String) (s : Session)
    (h : s.dmarcResult = none) :
    Session.Headers conf qid s =
      ⟨s, .respAccept, none, [.audit qid "accept" "unknown" "unknown" s.headerFrom]⟩ := by
  unfold Session.Headers
  rw [h]

theorem Headers_reject (conf : Conf) (qid : String) (s : Session) (r : DMARCResult)
    (hr : s.dmarcResult = some r) (hsr : s.shouldReject = true) :
    Session.Headers conf qid s =
      ⟨s, newRejectResponse conf r.From, none,
        [.audit qid "reject" r.Value r.From s.headerFrom]⟩ := by
  unfold Session.Headers
  rw [hr]
  simp [hsr]

theorem Headers_accept_pass (conf : Conf) (qid : String) (s : Session) (r : DMARCResult)
    (hr : s.dmarcResult = some r) (hsr : s.shouldReject = false) :
    Session.Headers conf qid s =
      ⟨s, .respAccept, none, [.audit qid "accept" r.Value r.From s.headerFrom]⟩ := by
  unfold Session.Headers
  rw [hr]
  simp [hsr]

theorem Headers_sess_eq (conf : Conf) (qid : String) (s : Session) :
    (Session.Headers conf qid s).sess = s := by
  unfold Session.Headers
  split
  · rfl
  · split <;> rfl

/-! ### The claims -/

/-- C1: For every captured DMARC verdict, the cached rejection decision
`shouldReject` is true if and only if the verdict's outcome is not `pass`
AND the verdict's claimed domain, lowercased, is a member of the reject
table built by lowercasing every configured domain; any non-pass outcome
qualifies equally, since only inequality with `pass` is tested. -/
theorem claim1_cached_decision_iff (conf : Conf)
    (parse : String → Except String (String × List AuthResult)) (qid : String)
    (ds : List String) (events : List (String × String)) (r : DMARCResult)
    (h : (runHeaders conf (mkRejectDomains ds) parse qid initSession events).dmarcResult
           = some r) :
    (runHeaders conf (mkRejectDomains ds) parse qid initSession events).shouldReject = true ↔
      (r.Value ≠ ResultPass ∧ (ds.map goToLower).contains (goToLower r.From) = true) := by
  have hc : DecisionCached (mkRejectDomains ds)
      (runHeaders conf (mkRejectDomains ds) parse qid initSession events) :=
    runHeaders_preserves_cached conf (mkRejectDomains ds) parse qid events initSession
      (by intro r' hr'; simp [initSession] at hr')
  rw [hc r h]
  simp [shouldRejectDMARCRes, mkRejectDomains, bne_iff_ne]

/-- Witness for C1: one captured `dmarc=fail` verdict for `GMAIL.com`
against the policy list `["gmail.com"]`. -/
theorem claim1_witness :
    (runHeaders sampleConf (mkRejectDomains ["gmail.com"]) sampleParse "QUEUEID" initSession
        [("Authentication-Results", "mail.club1.fr; dmarc=fail header.from=GMAIL.com")]).dmarcResult
      = some ⟨"fail", "GMAIL.com"⟩ ∧
    ((runHeaders sampleConf (mkRejectDomains ["gmail.com"]) sampleParse "QUEUEID" initSession
        [("Authentication-Results", "mail.club1.fr; dmarc=fail header.from=GMAIL.com")]).shouldReject = true ↔
      ((DMARCResult.mk "fail" "GMAIL.com").Value ≠ ResultPass ∧
        (["gmail.com"].map goToLower).contains
          (goToLower (DMARCResult.mk "fail" "GMAIL.com").From) = true)) :=
  ⟨by decide,
   claim1_cached_decision_iff sampleConf sampleParse "QUEUEID" ["gmail.com"]
     [("Authentication-Results", "mail.club1.fr; dmarc=fail header.from=GMAIL.com")]
     ⟨"fail", "GMAIL.com"⟩ (by decide)⟩

/-- C2: Whenever the end-of-headers decision is reject, the response is the
reply-code response whose text is "550 5.7.1 " followed by the configured
template (decomposed as `pre ++ "%s" ++ post`, its single substitution
point) with the verdict's claimed domain inserted in its original casing. -/
theorem claim2_reject_response (conf : Conf) (qid : String) (s : Session) (r : DMARCResult)
    (pre post : List Char)
    (hr : s.dmarcResult = some r) (hsr : s.shouldReject = true)
    (hfmt : conf.RejectFmt.data = pre ++ '%' :: 's' :: post)
    (hpre : '%' ∉ pre) ( _hpost : '%' ∉ post) :
    (Session.Headers conf qid s).resp =
      .respReplyCode ("550 5.7.1 " ++ String.mk (pre ++ r.From.data ++ post)) := by
  rw [Headers_reject conf qid s r hr hsr]
  show newRejectResponse conf r.From = _
  unfold newRejectResponse sprintf1
  rw [hfmt, substVerb_single r.From.data post pre hpre]

/-- Witness for C2: policy domain `gmail.com`, claimed domain `GMAIL.com`,
default template; the message carries `GMAIL.com` in its original casing. -/
theorem claim2_witness :
    sampleRejectSession.dmarcResult = some ⟨"fail", "GMAIL.com"⟩ ∧
    sampleRejectSession.shouldReject = true ∧
    (Session.Headers sampleConf "QUEUEID" sampleRejectSession).resp =
      .respReplyCode "550 5.7.1 rejected because of DMARC failure for GMAIL.com overriding policy" := by
  refine ⟨by decide, by decide, ?_⟩
  have h := claim2_reject_response sampleConf "QUEUEID" sampleRejectSession
    ⟨"fail", "GMAIL.com"⟩ rejectFmtPre rejectFmtPost (by decide) (by decide)
    (by decide) (by decide) (by decide)
  rw [h]
  decide

/-- C3: A session whose header events are all inert (no
Authentication-Results at all, unparsable ones, foreign identifiers, or no
DMARC entry) reaches end-of-headers with no captured verdict, accepts, and
audits the outcome and domain as unknown. -/
theorem claim3_no_verdict_accepts (conf : Conf) (tbl : List String)
    (parse : String → Except String (String × List AuthResult)) (qid : String)
    (events : List (String × String))
    (h : ∀ ev ∈ events, inertEvent conf parse ev = true) :
    (runHeaders conf tbl parse qid initSession events).dmarcResult = none ∧
    Session.Headers conf qid (runHeaders conf tbl parse qid initSession events) =
      ⟨runHeaders conf tbl parse qid initSession events, .respAccept, none,
        [.audit qid "accept" "unknown" "unknown"
          (runHeaders conf tbl parse qid initSession events).headerFrom]⟩ := by
  have hnone : (runHeaders conf tbl parse qid initSession events).dmarcResult = none :=
    runHeaders_inert_preserves_dmarcResult conf tbl parse qid events initSession h
  exact ⟨hnone, Headers_none conf qid _ hnone⟩

/-- Witness for C3: one event of each inert kind, ending in the
unknown-unknown accept audit line. -/
theorem claim3_witness :
    (∀ ev ∈ sampleInertEvents, inertEvent sampleConf sampleParse ev = true) ∧
    (runHeaders sampleConf sampleTbl sampleParse "QUEUEID" initSession
        sampleInertEvents).dmarcResult = none ∧
    Session.Headers sampleConf "QUEUEID"
        (runHeaders sampleConf sampleTbl sampleParse "QUEUEID" initSession sampleInertEvents) =
      ⟨runHeaders sampleConf sampleTbl sampleParse "QUEUEID" initSession sampleInertEvents,
        .respAccept, none,
        [.audit "QUEUEID" "accept" "unknown" "unknown"
          (runHeaders sampleConf sampleTbl sampleParse "QUEUEID" initSession
            sampleInertEvents).headerFrom]⟩ :=
  ⟨by decide,
   (claim3_no_verdict_accepts sampleConf sampleTbl sampleParse "QUEUEID"
      sampleInertEvents (by decide)).1,
   (claim3_no_verdict_accepts sampleConf sampleTbl sampleParse "QUEUEID"
      sampleInertEvents (by decide)).2⟩

/-- C4: First occurrence wins.  Once the Authentication-Results field is
captured, no later header event changes the captured verdict or the cached
decision; once the From field is captured, its value is retained; once both
are captured, every further header event leaves the session unchanged. -/
theorem claim4_first_occurrence_wins (conf : Conf) (tbl : List String)
    (parse : String → Except String (String × List AuthResult)) (qid : String)
    (s : Session) (events : List (String × String)) :
    (s.fieldsFound &&& fieldAuthres ≠ 0 →
      (runHeaders conf tbl parse qid s events).dmarcResult = s.dmarcResult ∧
      (runHeaders conf tbl parse qid s events).shouldReject = s.shouldReject) ∧
    (s.fieldsFound &&& fieldFrom ≠ 0 →
      (runHeaders conf tbl parse qid s events).headerFrom = s.headerFrom) ∧
    (s.fieldsFound = fieldAll → runHeaders conf tbl parse qid s events = s) := by
  refine ⟨fun h => ?_, fun h => ?_,
    fun h => runHeaders_full_capture conf tbl parse qid events s h⟩
  · obtain ⟨h1, h2, _⟩ := runHeaders_preserves_authres conf tbl parse qid events s h
    exact ⟨h1, h2⟩
  · exact (runHeaders_preserves_from conf tbl parse qid events s h).1

/-- Witness for C4: a fully captured session is unchanged by a later
matching Authentication-Results event and a later From event. -/
theorem claim4_witness :
    (sampleCapturedSession.fieldsFound &&& fieldAuthres ≠ 0 ∧
      (runHeaders sampleConf sampleTbl sampleParse "QUEUEID" sampleCapturedSession
          sampleLaterEvents).dmarcResult = sampleCapturedSession.dmarcResult ∧
      (runHeaders sampleConf sampleTbl sampleParse "QUEUEID" sampleCapturedSession
          sampleLaterEvents).shouldReject = sampleCapturedSession.shouldReject) ∧
    (sampleCapturedSession.fieldsFound &&& fieldFrom ≠ 0 ∧
      (runHeaders sampleConf sampleTbl sampleParse "QUEUEID" sampleCapturedSession
          sampleLaterEvents).headerFrom = sampleCapturedSession.headerFrom) ∧
    (sampleCapturedSession.fieldsFound = fieldAll ∧
      runHeaders sampleConf sampleTbl sampleParse "QUEUEID" sampleCapturedSession
          sampleLaterEvents = sampleCapturedSession) :=
  ⟨⟨by decide,
    (claim4_first_occurrence_wins sampleConf sampleTbl sampleParse "QUEUEID"
      sampleCapturedSession sampleLaterEvents).1 (by decide)⟩,
   ⟨by decide,
    (claim4_first_occurrence_wins sampleConf sampleTbl sampleParse "QUEUEID"
      sampleCapturedSession sampleLaterEvents).2.1 (by decide)⟩,
   ⟨by decide,
    (claim4_first_occurrence_wins sampleConf sampleTbl sampleParse "QUEUEID"
      sampleCapturedSession sampleLaterEvents).2.2 (by decide)⟩⟩

/-- C5: On an Authentication-Results event whose field is not yet captured,
a parse failure and a foreign authserv identifier are both inert: the call
returns continue with no error and leaves the session (in particular the
capture mask) unchanged, and only the parse failure logs a diagnostic
carrying the queue id, the error and the raw field. -/
theorem claim5_malformed_and_foreign_inert (conf : Conf) (tbl : List String)
    (parse : String → Except String (String × List AuthResult)) (qid : String)
    (s : Session) (n v : String)
    (hbit : s.fieldsFound &&& fieldAuthres = 0)
    (hname : equalFold n "Authentication-Results" = true) :
    (∀ e, parse v = .error e →
        Session.Header conf tbl parse qid s n v =
          ⟨s, .respContinue, none, [.logParseFailure qid e (n ++ ": " ++ v)]⟩) ∧
    (∀ i results, parse v = .ok (i, results) → equalFold i conf.AuthservID = false →
        Session.Header conf tbl parse qid s n v = ⟨s, .respContinue, none, []⟩) := by
  rw [Header_authres_branch conf tbl parse qid s n v hbit hname]
  constructor
  · intro e hp
    rw [hp]
  · intro i results hp hid
    rw [hp]
    simp [hid]

/-- Witness for C5: the unparsable test header logs its diagnostic and
leaves the fresh session untouched; the foreign-identifier header is
silently inert. -/
theorem claim5_witness :
    initSession.fieldsFound &&& fieldAuthres = 0 ∧
    Session.Header sampleConf sampleTbl sampleParse "QUEUEID" initSession
        "Authentication-Results" "mail.club1.fr; dmarc header.from=gmail.com" =
      ⟨initSession, .respContinue, none,
        [.logParseFailure "QUEUEID" "msgauth: malformed authentication method"
          ("Authentication-Results" ++ ": " ++ "mail.club1.fr; dmarc header.from=gmail.com")]⟩ ∧
    Session.Header sampleConf sampleTbl sampleParse "QUEUEID" initSession
        "Authentication-Results" "example.com; dmarc=fail header.from=gmail.com" =
      ⟨initSession, .respContinue, none, []⟩ :=
  ⟨by decide,
   (claim5_malformed_and_foreign_inert sampleConf sampleTbl sampleParse "QUEUEID" initSession
      "Authentication-Results" "mail.club1.fr; dmarc header.from=gmail.com"
      (by decide) (by decide)).1 "msgauth: malformed authentication method" rfl,
   (claim5_malformed_and_foreign_inert sampleConf sampleTbl sampleParse "QUEUEID" initSession
      "Authentication-Results" "example.com; dmarc=fail header.from=gmail.com"
      (by decide) (by decide)).2 "example.com" [.dmarc ⟨"fail", "gmail.com"⟩]
      rfl (by decide)⟩

/-- C6: A matching Authentication-Results occurrence with at least one
DMARC entry captures the last DMARC entry of that occurrence, marks the
field captured, and caches `shouldReject` computed from that entry. -/
theorem claim6_last_entry_captured (conf : Conf) (tbl : List String)
    (parse : String → Except String (String × List AuthResult)) (qid : String)
    (s : Session) (n v : String) (i : String) (results : List AuthResult) (r : DMARCResult)
    (hbit : s.fieldsFound &&& fieldAuthres = 0)
    (hname : equalFold n "Authentication-Results" = true)
    (hp : parse v = .ok (i, results))
    (hid : equalFold i conf.AuthservID = true)
    (hl : lastDmarc results = some r) :
    Session.Header conf tbl parse qid s n v =
      ⟨{ s with fieldsFound := s.fieldsFound ||| fieldAuthres,
                dmarcResult := some r,
                shouldReject := shouldRejectDMARCRes tbl r },
        .respContinue, none, []⟩ ∧
    (Session.Header conf tbl parse qid s n v).sess.fieldsFound &&& fieldAuthres ≠ 0 := by
  have h1 : Session.Header conf tbl parse qid s n v =
      ⟨{ s with fieldsFound := s.fieldsFound ||| fieldAuthres,
                dmarcResult := some r,
                shouldReject := shouldRejectDMARCRes tbl r },
        .respContinue, none, []⟩ := by
    rw [Header_authres_branch conf tbl parse qid s n v hbit hname, hp]
    simp only [hid, Bool.not_true, Bool.false_eq_true, if_false]
    exact congrArg (fun st => MilterOut.mk st .respContinue none [])
      (foldl_captureDMARC_of_lastDmarc_some tbl hl s)
  refine ⟨h1, ?_⟩
  rw [h1]
  show (s.fieldsFound ||| fieldAuthres) &&& fieldAuthres ≠ 0
  unfold fieldAuthres
  rw [lor_one_and_one]
  decide

/-- Witness for C6: a header occurrence with two DMARC entries captures the
second one. -/
theorem claim6_witness :
    sampleParse "mail.club1.fr; dmarc=fail header.from=a.com; dmarc=none header.from=b.com" =
      .ok ("mail.club1.fr", [.dmarc ⟨"fail", "a.com"⟩, .dmarc ⟨"none", "b.com"⟩]) ∧
    lastDmarc [.dmarc ⟨"fail", "a.com"⟩, .dmarc ⟨"none", "b.com"⟩] = some ⟨"none", "b.com"⟩ ∧
    Session.Header sampleConf sampleTbl sampleParse "QUEUEID" initSession
        "Authentication-Results"
        "mail.club1.fr; dmarc=fail header.from=a.com; dmarc=none header.from=b.com" =
      ⟨{ initSession with
          fieldsFound := initSession.fieldsFound ||| fieldAuthres,
          dmarcResult := some ⟨"none", "b.com"⟩,
          shouldReject := shouldRejectDMARCRes sampleTbl ⟨"none", "b.com"⟩ },
        .respContinue, none, []⟩ :=
  ⟨rfl, by decide,
   (claim6_last_entry_captured sampleConf sampleTbl sampleParse "QUEUEID" initSession
      "Authentication-Results"
      "mail.club1.fr; dmarc=fail header.from=a.com; dmarc=none header.from=b.com"
      "mail.club1.fr" [.dmarc ⟨"fail", "a.com"⟩, .dmarc ⟨"none", "b.com"⟩] ⟨"none", "b.com"⟩
      (by decide) (by decide) rfl (by decide) (by decide)).1⟩

/-- C7 (divergence witness): on the repository's mime-encoded From test
vector the audit line carries the raw encoded bytes, not the decoded
display form the test expects — `Session.Headers` never decodes
`headerFrom`. -/
theorem claim7_audit_addr_is_raw :
    (Session.Headers sampleConf "QUEUEID"
        (runHeaders sampleConf sampleTbl sampleParse "QUEUEID" initSession mimeEvents)).logs =
      [.audit "QUEUEID" "accept" "pass" "coucou.fr" rawEncodedFrom] ∧
    (LogLine.audit "QUEUEID" "accept" "pass" "coucou.fr" rawEncodedFrom).render =
      "QUEUEID: accept dmarc=pass from=coucou.fr addr=\"" ++ rawEncodedFrom ++ "\"" ∧
    rawEncodedFrom ≠ decodedFrom :=
  ⟨by decide, by decide, by decide⟩

/-- C8: The mail-from event accepts unconditionally when the transaction
carries a non-empty authentication macro, and continues when it is empty;
in both cases no error is returned. -/
theorem claim8_preauthenticated_exempt (authAuthen : String) :
    (authAuthen ≠ "" → Session.MailFrom authAuthen = (.respAccept, none)) ∧
    (authAuthen = "" → Session.MailFrom authAuthen = (.respContinue, none)) := by
  constructor
  · intro h
    unfold Session.MailFrom
    rw [if_pos]
    simpa using h
  · intro h
    unfold Session.MailFrom
    rw [if_neg]
    simp [h]

/-- Witness for C8: an authenticated macro accepts, an empty one continues. -/
theorem claim8_witness :
    ("nicolas" : String) ≠ "" ∧ Session.MailFrom "nicolas" = (.respAccept, none) ∧
    Session.MailFrom "" = (.respContinue, none) :=
  ⟨by decide,
   (claim8_preauthenticated_exempt "nicolas").1 (by decide),
   (claim8_preauthenticated_exempt "").2 rfl⟩

/-- C9: End-of-headers is idempotent: it leaves the session state exactly
as it found it, so a second invocation returns the same decision, error
and audit line as the first. -/
theorem claim9_headers_idempotent (conf : Conf) (qid : String) (s : Session) :
    (Session.Headers conf qid s).sess = s ∧
    Session.Headers conf qid (Session.Headers conf qid s).sess =
      Session.Headers conf qid s := by
  have h : (Session.Headers conf qid s).sess = s := Headers_sess_eq conf qid s
  exact ⟨h, by rw [h]⟩

/-- C10: Every header-arrival event, on every branch, returns the continue
verdict and a nil error; accept or reject is only ever rendered at
end-of-headers. -/
theorem claim10_header_always_continues (conf : Conf) (tbl : List String)
    (parse : String → Except String (String × List AuthResult)) (qid : String)
    (s : Session) (n v : String) :
    (Session.Header conf tbl parse qid s n v).resp = .respContinue ∧
    (Session.Header conf tbl parse qid s n v).err = none :=
  Header_resp_err conf tbl parse qid s n v

end Dmarcator
